import Mathlib

/-!
# Verification of `dependency-timeline` (`src/main.rs`)

A shallow embedding of the dependency-timeline program: it walks a git
repository's history, keeps the commits that touched a lock file, extracts the
tracked library's version at each such commit, and compacts the resulting
samples into a version-change timeline.

Modelling conventions:
* Parsed lock-file documents are represented by a small JSON-like tree `Json`;
  the textual serialization layer (`serde_json` / `toml` lexing) is an external
  collaborator, so blob contents are modelled as already-lexed documents, and
  "malformed content" is a document that fails structural decoding the way the
  derived `serde::Deserialize` implementations do.
* Git trees are flat path-to-blob maps (`List (String × Json)`); the diff
  primitive restricted to one pathspec reports a change record exactly when the
  two trees disagree at that path.
* The `todo!` macro in `search_in_file` aborts the whole process; this is
  modelled by a dedicated `Outcome.fatal` constructor which, unlike
  `Outcome.err`, is not absorbed by the sampling loop's `flat_map`.
* Timestamps: `git2::Time::seconds` is an `i64`; `seconds as u64` is the
  two's-complement reinterpretation, i.e. reduction modulo `2 ^ 64`. Adding
  `Duration::from_secs` of that value to `UNIX_EPOCH` panics when the value
  exceeds `SystemTime`'s `i64` seconds range (`Add<Duration> for SystemTime`
  aborts on overflow), so `date_from_commit` returns `Option Nat`: `some` the
  seconds after the epoch when the sum is representable, `none` for the
  overflow panic, which — like `todo!` — takes down the whole process.
-/

namespace DepTimeline

/-- A JSON-like document tree, the output of the external lexer
(`serde_json::Value`, and the analogous `toml` document tree). -/
inductive Json where
  | null : Json
  | bool (b : Bool) : Json
  | str (s : String) : Json
  | num (n : Int) : Json
  | arr (elems : List Json) : Json
  | obj (fields : List (String × Json)) : Json

mutual

/-- Structural equality of documents (blob-content equality, as git's object
identity gives for the diff primitive). -/
def Json.beq : Json → Json → Bool
  | .null, .null => true
  | .bool a, .bool b => a == b
  | .str a, .str b => a == b
  | .num a, .num b => a == b
  | .arr as, .arr bs => Json.beqList as bs
  | .obj fs, .obj gs => Json.beqFields fs gs
  | _, _ => false

/-- Elementwise equality of document arrays. -/
def Json.beqList : List Json → List Json → Bool
  | [], [] => true
  | a :: as, b :: bs => Json.beq a b && Json.beqList as bs
  | _, _ => false

/-- Elementwise equality of document object fields. -/
def Json.beqFields : List (String × Json) → List (String × Json) → Bool
  | [], [] => true
  | (k, v) :: fs, (l, w) :: gs => k == l && Json.beq v w && Json.beqFields fs gs
  | _, _ => false

end

mutual

theorem Json.beq_refl : ∀ (a : Json), Json.beq a a = true
  | .null => rfl
  | .bool b => by simp [Json.beq]
  | .str s => by simp [Json.beq]
  | .num n => by simp [Json.beq]
  | .arr as => by simp [Json.beq, Json.beqList_refl as]
  | .obj fs => by simp [Json.beq, Json.beqFields_refl fs]

theorem Json.beqList_refl : ∀ (as : List Json), Json.beqList as as = true
  | [] => rfl
  | a :: as => by simp [Json.beqList, Json.beq_refl a, Json.beqList_refl as]

theorem Json.beqFields_refl : ∀ (fs : List (String × Json)), Json.beqFields fs fs = true
  | [] => rfl
  | (k, v) :: fs => by simp [Json.beqFields, Json.beq_refl v, Json.beqFields_refl fs]

end

/-- Rust struct `SearchResult { version: Option<String>, date: SystemTime }`;
the date is seconds since the Unix epoch, as an unsigned 64-bit quantity. -/
structure SearchResult where
  version : Option String
  date : Nat
deriving DecidableEq, Repr

/-- `ComposerPackage { name: String, version: String }`. -/
structure ComposerPackage where
  name : String
  version : String
deriving DecidableEq, Repr

/-- `ComposerLock { packages: Vec<ComposerPackage> }`. -/
structure ComposerLock where
  packages : List ComposerPackage
deriving DecidableEq, Repr

/-- Decode a JSON string, as `serde` does for a `String` field. -/
def decodeString : Json → Option String
  | .str s => some s
  | _ => none

/-- Derived `Deserialize` for `ComposerPackage`: an object with required
string fields `name` and `version`; unknown fields are ignored. -/
def decodeComposerPackage : Json → Option ComposerPackage
  | .obj fields => do
      let name ← (fields.lookup "name").bind decodeString
      let version ← (fields.lookup "version").bind decodeString
      pure ⟨name, version⟩
  | _ => none

/-- Derived `Deserialize` for `ComposerLock`: an object with a required
`packages` array; unknown top-level fields are ignored. -/
def decodeComposerLock : Json → Option ComposerLock
  | .obj fields =>
      match fields.lookup "packages" with
      | some (.arr elems) => (elems.mapM decodeComposerPackage).map ComposerLock.mk
      | _ => none
  | _ => none

namespace composer

/-- `composer::get_library_version`: deserialize the document (failure is a
hard error for this sample), then return the version of the first package
whose name equals `library`, or `none` when no package matches. -/
def get_library_version (content : Json) (library : String) :
    Except Unit (Option String) :=
  match decodeComposerLock content with
  | none => .error ()
  | some lock =>
      .ok ((lock.packages.find? (fun p => p.name == library)).map (·.version))

end composer

/-- `CargoPackage { name: String, version: String }`. -/
structure CargoPackage where
  name : String
  version : String
deriving DecidableEq, Repr

/-- `CargoLock { package: Vec<CargoPackage> }`. -/
structure CargoLock where
  package : List CargoPackage
deriving DecidableEq, Repr

/-- Derived `Deserialize` for `CargoPackage` (via the `toml` document tree). -/
def decodeCargoPackage : Json → Option CargoPackage
  | .obj fields => do
      let name ← (fields.lookup "name").bind decodeString
      let version ← (fields.lookup "version").bind decodeString
      pure ⟨name, version⟩
  | _ => none

/-- Derived `Deserialize` for `CargoLock`: requires a `package` array. -/
def decodeCargoLock : Json → Option CargoLock
  | .obj fields =>
      match fields.lookup "package" with
      | some (.arr elems) => (elems.mapM decodeCargoPackage).map CargoLock.mk
      | _ => none
  | _ => none

namespace cargo

/-- `cargo::get_library_version`: same matching semantics as the composer
adapter, over the `toml`-parsed document. -/
def get_library_version (content : Json) (library : String) :
    Except Unit (Option String) :=
  match decodeCargoLock content with
  | none => .error ()
  | some lock =>
      .ok ((lock.package.find? (fun p => p.name == library)).map (·.version))

end cargo

/-- `NpmPackage { version: Option<String> }`: a missing or `null` field
decodes to `none`; any other non-string value is a deserialization error. -/
structure NpmPackage where
  version : Option String
deriving DecidableEq, Repr

/-- `NpmLock { packages: HashMap<String, NpmPackage> }`, the map modelled as
an association list keyed by the JSON object's keys. -/
structure NpmLock where
  packages : List (String × NpmPackage)
deriving DecidableEq, Repr

/-- Derived `Deserialize` for `NpmPackage`. -/
def decodeNpmPackage : Json → Option NpmPackage
  | .obj fields =>
      match fields.lookup "version" with
      | none => some ⟨none⟩
      | some .null => some ⟨none⟩
      | some (.str s) => some ⟨some s⟩
      | some _ => none
  | _ => none

/-- Derived `Deserialize` for `NpmLock`: requires a `packages` object, each
value of which must decode as an `NpmPackage`. -/
def decodeNpmLock : Json → Option NpmLock
  | .obj fields =>
      match fields.lookup "packages" with
      | some (.obj entries) =>
          (entries.mapM
            (fun kv => (decodeNpmPackage kv.2).map (fun p => (kv.1, p)))).map
            NpmLock.mk
      | _ => none
  | _ => none

namespace npm

/-- `npm::get_library_version`: deserialize (failure is a hard error), look up
the key `node_modules/<library>`, and return its version field when that field
is present; otherwise `none`. -/
def get_library_version (content : Json) (library : String) :
    Except Unit (Option String) :=
  match decodeNpmLock content with
  | none => .error ()
  | some lock =>
      match lock.packages.lookup ("node_modules/" ++ library) with
      | some ⟨some version⟩ => .ok (some version)
      | _ => .ok none

end npm

/-- The `PackageManager` enum. -/
inductive PackageManager where
  | composer : PackageManager
  | cargo : PackageManager
  | npm : PackageManager
deriving DecidableEq, Repr

/-- `PackageManager::guess_from_file_name`: exact, case-sensitive match
against the three recognized lock-file names. -/
def PackageManager.guess_from_file_name (file_name : String) : Option PackageManager :=
  match file_name with
  | "composer.lock" => some .composer
  | "Cargo.lock" => some .cargo
  | "package-lock.json" => some .npm
  | _ => none

/-- `PackageManager::get_library_version`: dispatch to the format adapter. -/
def PackageManager.get_library_version :
    PackageManager → Json → String → Except Unit (Option String)
  | .composer, content, library => composer.get_library_version content library
  | .cargo, content, library => cargo.get_library_version content library
  | .npm, content, library => npm.get_library_version content library

/-- A tree snapshot: a flat map from repository-relative path to blob
content (the parsed document form of the blob's text). -/
abbrev Tree := List (String × Json)

/-- A commit as the program consumes it: its tree, its first parent's tree
when a first parent exists (`commit.parent(0)`), and `git2::Time::seconds`
of its authorial time (an `i64`). -/
structure Commit where
  tree : Tree
  parentTree : Option Tree
  seconds : Int

/-- Blob-content equality at one path (both absent, or both present with
equal content). -/
def blobEq : Option Json → Option Json → Bool
  | none, none => true
  | some a, some b => Json.beq a b
  | _, _ => false

theorem blobEq_refl (o : Option Json) : blobEq o o = true := by
  cases o with
  | none => rfl
  | some j => simpa [blobEq] using Json.beq_refl j

/-- The change records of `diff_tree_to_tree` with the pathspec restricted to
`path`: one delta exactly when the two trees disagree at that path. -/
def diffDeltas (parentTree tree : Tree) (path : String) : List String :=
  if blobEq (parentTree.lookup path) (tree.lookup path) then [] else [path]

/-- The per-commit body of the loop in `get_commits_for_file`: a root commit
is always kept; a commit with a first parent is kept iff the path-restricted
diff against the first parent has `deltas().len() > 0`. -/
def qualifies (path : String) (c : Commit) : Bool :=
  match c.parentTree with
  | none => true
  | some pt => decide ((diffDeltas pt c.tree path).length > 0)

/-- `get_commits_for_file`: filter the revwalk's commits (time-descending,
newest first, an external collaborator) down to the qualifying ones. -/
def get_commits_for_file (revwalk : List Commit) (path : String) : List Commit :=
  revwalk.filter (qualifies path)

/-- `Path::file_name` for the forward-slash paths the program receives: the
characters after the last separator. -/
def fileName (path : String) : String :=
  String.mk (path.toList.foldl (fun acc ch => if ch = '/' then [] else acc ++ [ch]) [])

/-- The `as u64` cast: the commit's `i64` seconds reinterpreted as an
unsigned 64-bit quantity, i.e. reduced modulo `2 ^ 64`. -/
def castU64 (s : Int) : Nat :=
  (s % (2 ^ 64 : Int)).toNat

/-- `date_from_commit`: `UNIX_EPOCH + Duration::from_secs(time.seconds() as u64)`.
The addition is `SystemTime`'s checked add: it yields the cast value as
seconds after the epoch when that value fits the `i64` seconds range of
`SystemTime`, and panics (`none`) when it does not — which is exactly the
wrapped pre-1970 case. -/
def date_from_commit (c : Commit) : Option Nat :=
  if castU64 c.seconds < 2 ^ 63 then some (castU64 c.seconds) else none

/-- The three ways one call of `search_in_file` can end: a sample, a
recoverable `Err` (absorbed by the caller's `flat_map`), or the `todo!`
abort that takes down the whole process. -/
inductive Outcome (α : Type) where
  | ok (val : α) : Outcome α
  | err : Outcome α
  | fatal : Outcome α
deriving DecidableEq, Repr

/-- `search_in_file`: fetch the blob at the path from the commit's tree (a
missing blob is a recoverable `Err`), pick the adapter by the path's file
name (`todo!` — fatal — when none matches), run the adapter (its parse error
is a recoverable `Err`), and pair the version with the commit's date; the
date computation itself panics — fatal — when the cast seconds overflow
`SystemTime` (see `date_from_commit`). -/
def search_in_file (c : Commit) (file_path library : String) : Outcome SearchResult :=
  match c.tree.lookup file_path with
  | none => .err
  | some content =>
      match PackageManager.guess_from_file_name (fileName file_path) with
      | none => .fatal
      | some pm =>
          match pm.get_library_version content library with
          | .error _ => .err
          | .ok version =>
              match date_from_commit c with
              | none => .fatal
              | some date => .ok { version := version, date := date }

/-- The sampling stage of `main`: `flat_map(search_in_file)` over the
qualifying commits. An `Err` outcome drops that one commit's sample; the
`todo!` outcome aborts the run with no output. -/
def collectSamples (commits : List Commit) (file_path library : String) :
    Except Unit (List SearchResult) :=
  match commits with
  | [] => .ok []
  | c :: rest =>
      match search_in_file c file_path library with
      | .fatal => .error ()
      | .err => collectSamples rest file_path library
      | .ok r => (collectSamples rest file_path library).map (r :: ·)

/-- The compaction loop of `main`, started on a chronological (oldest-first)
sequence: `previous_version` is threaded through; a sample equal to it is
skipped, any other sample is emitted and becomes the new `previous_version`. -/
def compactGo : Option String → List SearchResult → List SearchResult
  | _, [] => []
  | prev, r :: rest =>
      if r.version = prev then compactGo prev rest
      else r :: compactGo r.version rest

/-- The compaction step applied to a chronological sample sequence, with the
initial `previous_version = None` of `main`. -/
def compactChrono (samples : List SearchResult) : List SearchResult :=
  compactGo none samples

/-- The Timeline Compactor as `main` runs it: the samples arrive newest
first (revwalk order), `iter.rev()` turns them oldest first, then the
compaction loop emits the version-change entries. -/
def timeline (results : List SearchResult) : List SearchResult :=
  compactChrono results.reverse

/-- The whole pipeline of `main` after argument parsing: filter the history,
sample each qualifying commit, compact into the printed timeline. -/
def run (revwalk : List Commit) (file_path library : String) :
    Except Unit (List SearchResult) :=
  (collectSamples (get_commits_for_file revwalk file_path) file_path library).map timeline

/-! ## Timeline Compactor lemmas -/

theorem compactGo_nil (prev : Option String) : compactGo prev [] = [] := rfl

theorem compactGo_cons (prev : Option String) (s : SearchResult) (rest : List SearchResult) :
    compactGo prev (s :: rest) =
      if s.version = prev then compactGo prev rest
      else s :: compactGo s.version rest := rfl

/-- Every entry the compaction loop emits differs in version from its
predecessor, and the first emitted entry differs from the initial
`previous_version` state. -/
theorem compactGo_chain (prev : Option String) (samples : List SearchResult) :
    List.Chain' (fun a b => a.version ≠ b.version) (compactGo prev samples) ∧
    ∀ r, (compactGo prev samples).head? = some r → r.version ≠ prev := by
  induction samples generalizing prev with
  | nil => exact ⟨List.chain'_nil, fun r h => by simp [compactGo_nil] at h⟩
  | cons s rest ih =>
      by_cases h : s.version = prev
      · have := ih prev
        rw [compactGo_cons, if_pos h]
        exact this
      · obtain ⟨ihc, ihh⟩ := ih s.version
        rw [compactGo_cons, if_neg h]
        refine ⟨?_, ?_⟩
        · cases hcg : compactGo s.version rest with
          | nil => exact List.chain'_singleton s
          | cons t ts =>
              rw [hcg] at ihc
              exact List.Chain'.cons (Ne.symm (ihh t (by rw [hcg]; rfl))) ihc
        · intro r hr
          simp only [List.head?_cons, Option.some.injEq] at hr
          exact hr ▸ h

/-- The compaction loop is idempotent for any initial state. -/
theorem compactGo_idem (prev : Option String) (l : List SearchResult) :
    compactGo prev (compactGo prev l) = compactGo prev l := by
  induction l generalizing prev with
  | nil => rfl
  | cons s rest ih =>
      rw [compactGo_cons]
      by_cases h : s.version = prev
      · rw [if_pos h]; exact ih prev
      · rw [if_neg h, compactGo_cons, if_neg h, ih s.version]

/-! ## Claims about the Timeline Compactor -/

/-- Claim C1, counterexample: the claim asserts that a sample sequence of
length one always yields exactly one timeline entry, even when the single
sample's version is the absent value. On the concrete single-sample input
whose version is `none`, the program emits no entry at all — the loop's
initial `previous_version = None` compares equal to the sample's `None` and
the sample is skipped — so the emitted timeline's length is not 1. -/
theorem single_none_sample_counterexample :
    (timeline [{ version := none, date := 0 }]).length ≠ 1 := by decide

/-- Claim C1 (amended): a sample sequence of length one yields exactly one
timeline entry (that sample) when its version is a present value `some v`;
when the single (chronologically first) sample's version is the absent value
`none`, the program emits no entry, because the compaction loop's initial
`previous_version` state is that same absent value. -/
theorem timeline_single_sample (v : String) (t : Nat) :
    timeline [{ version := some v, date := t }] = [{ version := some v, date := t }] ∧
    timeline [{ version := none, date := t }] = [] :=
  ⟨rfl, rfl⟩

/-- Claim C3: for every input sample sequence, the produced timeline has no
two consecutive entries with equal version values, absent (`none`) versions
being equal only to each other (the `Option String` equality). -/
theorem timeline_no_adjacent_duplicates (results : List SearchResult) :
    List.Chain' (fun a b => a.version ≠ b.version) (timeline results) :=
  (compactGo_chain none results.reverse).1

/-- Claim C8: the Timeline Compactor is idempotent — applying the compaction
step to the timeline it produced, viewed again as a (chronological) sample
sequence, returns that timeline unchanged. -/
theorem compaction_idempotent (results : List SearchResult) :
    compactChrono (timeline results) = timeline results :=
  compactGo_idem none results.reverse

/-! ## Claims about the History Filter -/

/-- The per-commit keep/drop decision, characterized for commits with a
first parent. -/
theorem qualifies_of_parent (path : String) (c : Commit) (pt : Tree)
    (hp : c.parentTree = some pt) :
    (qualifies path c = true ↔ diffDeltas pt c.tree path ≠ []) := by
  rw [qualifies, hp]
  unfold diffDeltas
  cases hb : blobEq (pt.lookup path) (c.tree.lookup path) with
  | true => simp [hb]
  | false => simp [hb]

/-- Claim C4: for every visited commit with a first parent, the History
Filter emits it iff the first-parent diff restricted to the target path has
at least one change record; consequently a commit whose tree agrees with the
first parent's tree at that path never appears in the output. -/
theorem filter_emits_iff_delta (revwalk : List Commit) (path : String)
    (c : Commit) (pt : Tree) (hc : c ∈ revwalk) (hp : c.parentTree = some pt) :
    (c ∈ get_commits_for_file revwalk path ↔ diffDeltas pt c.tree path ≠ []) ∧
    (pt.lookup path = c.tree.lookup path → c ∉ get_commits_for_file revwalk path) := by
  have hq := qualifies_of_parent path c pt hp
  constructor
  · rw [get_commits_for_file, List.mem_filter]
    constructor
    · exact fun h => hq.mp h.2
    · exact fun h => ⟨hc, hq.mpr h⟩
  · intro heq hmem
    rw [get_commits_for_file, List.mem_filter] at hmem
    apply hq.mp hmem.2
    rw [diffDeltas, heq, if_pos (blobEq_refl _)]

/-- Claim C5: a visited commit with no parent (a root commit) is always
emitted by the History Filter, with no diff computed. -/
theorem root_commit_included (revwalk : List Commit) (path : String)
    (c : Commit) (hc : c ∈ revwalk) (hp : c.parentTree = none) :
    c ∈ get_commits_for_file revwalk path := by
  rw [get_commits_for_file, List.mem_filter]
  exact ⟨hc, by rw [qualifies, hp]⟩

/-- A lock-file blob for the concrete history used by the witnesses. -/
def exComposerDoc : Json :=
  .obj [("packages", .arr [.obj [("name", .str "acme/foo"), ("version", .str "1.0.0")]])]

/-- A tree holding that blob at `composer.lock`. -/
def exTree : Tree := [("composer.lock", exComposerDoc)]

/-- A commit that created `composer.lock` on top of an empty parent tree. -/
def exChangedCommit : Commit := { tree := exTree, parentTree := some [], seconds := 100 }

/-- A root commit holding the lock file. -/
def exRootCommit : Commit := { tree := exTree, parentTree := none, seconds := 50 }

/-- Claim C4, witness: the characterization applied to the one-commit
history whose commit changed `composer.lock` against its parent. -/
theorem filter_emits_iff_delta_witness :
    (exChangedCommit ∈ get_commits_for_file [exChangedCommit] "composer.lock" ↔
      diffDeltas [] exChangedCommit.tree "composer.lock" ≠ []) ∧
    (List.lookup "composer.lock" ([] : Tree) = exChangedCommit.tree.lookup "composer.lock" →
      exChangedCommit ∉ get_commits_for_file [exChangedCommit] "composer.lock") :=
  filter_emits_iff_delta [exChangedCommit] "composer.lock" exChangedCommit []
    (List.Mem.head _) rfl

/-- Claim C5, witness: a single-commit repository whose root commit carries
the target file includes that commit among the qualifying samples. -/
theorem root_commit_included_witness :
    exRootCommit ∈ get_commits_for_file [exRootCommit] "composer.lock" :=
  root_commit_included [exRootCommit] "composer.lock" exRootCommit (List.Mem.head _) rfl

/-! ## Claims about the Lock-Format Adapters -/

/-- Claim C6: on a well-formed Format A (composer) document — one whose
structural decoding succeeds — extraction returns `some v` exactly when the
top-level package list splits around a first record named `library` carrying
version `v` (no earlier record has that name), and returns `none` exactly
when no record at all is named `library`. -/
theorem composer_extraction (j : Json) (library : String) (lock : ComposerLock)
    (h : decodeComposerLock j = some lock) :
    (∀ v, composer.get_library_version j library = .ok (some v) ↔
        ∃ pre p post, lock.packages = pre ++ p :: post ∧ p.name = library ∧
          p.version = v ∧ ∀ q ∈ pre, q.name ≠ library) ∧
    (composer.get_library_version j library = .ok none ↔
        ∀ p ∈ lock.packages, p.name ≠ library) := by
  have he : composer.get_library_version j library =
      .ok ((lock.packages.find? (fun p => p.name == library)).map (·.version)) := by
    unfold composer.get_library_version
    rw [h]
  rw [he]
  constructor
  · intro v
    simp only [Except.ok.injEq, Option.map_eq_some']
    constructor
    · rintro ⟨p, hfind, hv⟩
      rw [List.find?_eq_some] at hfind
      obtain ⟨hpb, pre, post, hsplit, hpre⟩ := hfind
      refine ⟨pre, p, post, hsplit, by simpa using hpb, hv, fun q hq => ?_⟩
      have := hpre q hq
      simpa using this
    · rintro ⟨pre, p, post, hsplit, hname, hv, hpre⟩
      refine ⟨p, ?_, hv⟩
      rw [List.find?_eq_some]
      exact ⟨by simp [hname], pre, post, hsplit, fun q hq => by simp [hpre q hq]⟩
  · simp only [Except.ok.injEq, Option.map_eq_none', List.find?_eq_none]
    simp

/-- The decoded form of the Format A scenario document. -/
def exComposerLock : ComposerLock := ⟨[⟨"acme/foo", "1.0.0"⟩]⟩

/-- Claim C6, witness: the scenario document
`\x7b"packages":[\x7b"name":"acme/foo","version":"1.0.0"\x7d]\x7d` yields
version `1.0.0` for `acme/foo` and `none` for `acme/bar`. -/
theorem composer_extraction_witness :
    composer.get_library_version exComposerDoc "acme/foo" = Except.ok (some "1.0.0") ∧
    composer.get_library_version exComposerDoc "acme/bar" = Except.ok none :=
  ⟨((composer_extraction exComposerDoc "acme/foo" exComposerLock rfl).1 "1.0.0").mpr
      ⟨[], ⟨"acme/foo", "1.0.0"⟩, [], rfl, rfl, rfl, fun q hq => absurd hq (List.not_mem_nil q)⟩,
   ((composer_extraction exComposerDoc "acme/bar" exComposerLock rfl).2).mpr (by decide)⟩

/-- Claim C7: Format C (npm) extraction looks up `node_modules/<library>` in
the decoded top-level packages mapping and returns its version field — `some`
exactly when the key is present with a non-null version; `none` when the key
is missing or its version field is null/absent — while a document whose
structural decoding fails yields a hard error, not `none`. -/
theorem npm_extraction (j : Json) (library : String) :
    (∀ lock, decodeNpmLock j = some lock →
        npm.get_library_version j library =
          .ok ((lock.packages.lookup ("node_modules/" ++ library)).bind
                NpmPackage.version)) ∧
    (decodeNpmLock j = none → npm.get_library_version j library = .error ()) := by
  constructor
  · intro lock h
    have he : npm.get_library_version j library =
        (match lock.packages.lookup ("node_modules/" ++ library) with
          | some ⟨some version⟩ => Except.ok (some version)
          | _ => Except.ok none) := by
      unfold npm.get_library_version
      rw [h]
    rw [he]
    cases hl : lock.packages.lookup ("node_modules/" ++ library) with
    | none => rfl
    | some pkg =>
        cases pkg with
        | mk v =>
            cases v with
            | none => rfl
            | some s => rfl
  · intro h
    unfold npm.get_library_version
    rw [h]

/-- The Format C scenario document
`\x7b"packages":\x7b"node_modules/acme-foo":\x7b"version":"3.1.0"\x7d\x7d\x7d`. -/
def exNpmDoc : Json :=
  .obj [("packages", .obj [("node_modules/acme-foo", .obj [("version", .str "3.1.0")])])]

/-- Its decoded form. -/
def exNpmLock : NpmLock := ⟨[("node_modules/acme-foo", ⟨some "3.1.0"⟩)]⟩

/-- Claim C7, witness: the scenario document yields `3.1.0` for `acme-foo`
and `none` for `other-lib`. -/
theorem npm_extraction_witness :
    npm.get_library_version exNpmDoc "acme-foo" = Except.ok (some "3.1.0") ∧
    npm.get_library_version exNpmDoc "other-lib" = Except.ok none :=
  ⟨((npm_extraction exNpmDoc "acme-foo").1 exNpmLock rfl).trans rfl,
   ((npm_extraction exNpmDoc "other-lib").1 exNpmLock rfl).trans rfl⟩

/-- Claim C9: composer extraction reads only the top-level `packages` field —
any document whose `packages` field is `pj` behaves exactly like the document
having only that field, so other sections (such as `packages-dev`) and
unknown top-level fields neither contribute versions nor cause a parse
error. -/
theorem composer_only_packages_section (fields : List (String × Json))
    (library : String) (pj : Json) (h : fields.lookup "packages" = some pj) :
    composer.get_library_version (.obj fields) library =
      composer.get_library_version (.obj [("packages", pj)]) library := by
  have hd : decodeComposerLock (.obj fields) = decodeComposerLock (.obj [("packages", pj)]) := by
    show (match fields.lookup "packages" with
          | some (.arr elems) => (elems.mapM decodeComposerPackage).map ComposerLock.mk
          | _ => none) = _
    rw [h]
    rfl
  have hcongr : ∀ d₁ d₂ : Json, decodeComposerLock d₁ = decodeComposerLock d₂ →
      composer.get_library_version d₁ library = composer.get_library_version d₂ library := by
    intro d₁ d₂ hdd
    unfold composer.get_library_version
    rw [hdd]
  exact hcongr _ _ hd

/-- A document whose `packages` list is empty while `packages-dev` carries
the requested library. -/
def exComposerDevFields : List (String × Json) :=
  [("packages", .arr []),
   ("packages-dev", .arr [.obj [("name", .str "acme/foo"), ("version", .str "9.9.9")]])]

/-- Claim C9, witness: on that document, extraction for `acme/foo` decodes
successfully (the unknown `packages-dev` section is ignored) and returns
`none` rather than the dev section's version. -/
theorem composer_only_packages_witness :
    composer.get_library_version (.obj exComposerDevFields) "acme/foo" = Except.ok none :=
  (composer_only_packages_section exComposerDevFields "acme/foo" (.arr []) rfl).trans rfl

/-! ## Claims about the Version Sampler's error policy -/

/-- When the target path's file name matches no known lock-file format,
`search_in_file` hits the `todo!` abort as soon as the blob exists at the
path; a commit without the blob still returns the recoverable `Err` first. -/
theorem search_in_file_unknown_format (c : Commit) (file_path library : String)
    (h : PackageManager.guess_from_file_name (fileName file_path) = none) :
    search_in_file c file_path library =
      match c.tree.lookup file_path with
      | none => .err
      | some _ => .fatal := by
  unfold search_in_file
  cases hl : c.tree.lookup file_path with
  | none => rfl
  | some content => rw [h]

/-- A tree carrying the target file under an unrecognized lock-file name. -/
def exUnknownTree : Tree := [("deps.lock", Json.obj [("packages", Json.arr [])])]

/-- A qualifying root commit holding that file. -/
def exUnknownCommit : Commit := { tree := exUnknownTree, parentTree := none, seconds := 10 }

/-- A second qualifying commit (file changed against an empty parent tree). -/
def exUnknownCommit2 : Commit := { tree := exUnknownTree, parentTree := some [], seconds := 20 }

/-- Claim C2, counterexample: on a two-commit history whose target path
`deps.lock` maps to no known format, the claim predicts each such commit's
sample is merely excluded and the run continues — i.e. the sampling stage
completes with the remaining samples, `Except.ok []` here. The program
instead aborts the whole run: the sampling stage returns `Except.error ()`,
which is not a completed run. -/
theorem unknown_format_counterexample :
    collectSamples [exUnknownCommit2, exUnknownCommit] "deps.lock" "acme/foo" =
      Except.error () ∧
    (Except.error () : Except Unit (List SearchResult)) ≠ Except.ok [] :=
  ⟨rfl, fun hcontra => Except.noConfusion hcontra⟩

/-- Claim C2 (amended): when the target path's file name maps to no known
lock-file format, the run is not continued past such a commit — the first
sampled commit whose blob exists at the path triggers the unimplemented
`todo!` abort and the entire run fails with no samples (commits without the
blob are still skipped by the recoverable-error route, so a history with no
blob at the path completes with an empty sample sequence). -/
theorem unknown_format_aborts (commits : List Commit) (file_path library : String)
    (h : PackageManager.guess_from_file_name (fileName file_path) = none) :
    collectSamples commits file_path library =
      if commits.any (fun c => (c.tree.lookup file_path).isSome) then .error ()
      else .ok [] := by
  induction commits with
  | nil => rfl
  | cons c rest ih =>
      cases hl : c.tree.lookup file_path with
      | none =>
          have hsv : search_in_file c file_path library = .err := by
            rw [search_in_file_unknown_format c file_path library h, hl]
          simp [collectSamples, hsv, ih]
          rw [hl]
          simp only [Option.isSome_none, Bool.false_or]
      | some content =>
          have hsv : search_in_file c file_path library = .fatal := by
            rw [search_in_file_unknown_format c file_path library h, hl]
          simp [collectSamples, hsv, hl]

/-- Claim C2 (amended), witness: the one-commit history with the
unrecognized name `deps.lock` aborts with `Except.error ()`. -/
theorem unknown_format_aborts_witness :
    collectSamples [exUnknownCommit] "deps.lock" "acme/foo" = Except.error () :=
  (unknown_format_aborts [exUnknownCommit] "deps.lock" "acme/foo" (by decide)).trans rfl

/-! ## Claim about the sample timestamp -/

/-- A commit with an ordinary post-1970 authorial time. -/
def exModernCommit : Commit := { tree := [], parentTree := none, seconds := 1700000000 }

/-- A commit with a pre-1970 authorial time of one second before the epoch. -/
def exPreEpochCommit : Commit := { tree := [], parentTree := none, seconds := -1 }

/-- Claim C10, counterexample: the claim asserts that a commit with negative
authorial seconds produces a far-future timestamp (the `2 ^ 64`-wrapped cast
value). At the concrete commit with seconds `-1`, the cast value `2 ^ 64 - 1`
exceeds `SystemTime`'s `i64` seconds range, so the epoch-plus-duration
addition panics and no timestamp is produced at all — the date computation
aborts (`none`) rather than yielding the claimed `some (2 ^ 64 - 1)`. -/
theorem pre_epoch_panic_counterexample :
    date_from_commit exPreEpochCommit = none ∧
    (none : Option Nat) ≠ some (2 ^ 64 - 1) :=
  ⟨by decide, fun hcontra => Option.noConfusion hcontra⟩

/-- Claim C10 (amended): the sample timestamp is computed from the commit's
authorial seconds by an unsigned 64-bit cast. For non-negative `i64` seconds
the timestamp equals the Unix epoch plus that many seconds; for negative
(pre-1970) seconds the cast wraps modulo `2 ^ 64` to a value of at least
`2 ^ 63`, which overflows `SystemTime`'s representable range, so the
addition panics and the run aborts — no pre-epoch (and no far-future)
timestamp is ever produced. -/
theorem date_from_commit_cast (c : Commit) :
    (0 ≤ c.seconds → c.seconds < 2 ^ 63 → date_from_commit c = some c.seconds.toNat) ∧
    (-(2 ^ 63) ≤ c.seconds → c.seconds < 0 →
      castU64 c.seconds = (c.seconds + 2 ^ 64).toNat ∧
        2 ^ 63 ≤ castU64 c.seconds ∧ date_from_commit c = none) := by
  have e64 : (2 ^ 64 : Int) = 18446744073709551616 := by norm_num
  have e63 : (2 ^ 63 : Int) = 9223372036854775808 := by norm_num
  have e63n : (2 ^ 63 : Nat) = 9223372036854775808 := by norm_num
  constructor
  · intro h1 h2
    rw [e63] at h2
    have hc : castU64 c.seconds = c.seconds.toNat := by
      unfold castU64
      rw [e64]
      omega
    unfold date_from_commit
    rw [hc, if_pos (by rw [e63n]; omega)]
  · intro h1 h2
    rw [e63] at h1
    have hc : castU64 c.seconds = (c.seconds + 2 ^ 64).toNat := by
      unfold castU64
      rw [e64]
      omega
    have hge : 2 ^ 63 ≤ castU64 c.seconds := by
      rw [hc, e63n, e64]
      omega
    have hnone : date_from_commit c = none := by
      unfold date_from_commit
      have hcond : ¬ castU64 c.seconds < 2 ^ 63 := by
        have hge2 := hge
        rw [e63n] at hge2
        rw [e63n]
        omega
      rw [if_neg hcond]
    exact ⟨hc, hge, hnone⟩

/-- Claim C10 (amended), witness: seconds `1700000000` map to that very
timestamp, while seconds `-1` wrap to at least `2 ^ 63` and the date
computation aborts. -/
theorem date_from_commit_cast_witness :
    (date_from_commit exModernCommit = some exModernCommit.seconds.toNat) ∧
    (castU64 exPreEpochCommit.seconds = (exPreEpochCommit.seconds + 2 ^ 64).toNat ∧
      2 ^ 63 ≤ castU64 exPreEpochCommit.seconds ∧
      date_from_commit exPreEpochCommit = none) :=
  ⟨(date_from_commit_cast exModernCommit).1 (by decide) (by decide),
   (date_from_commit_cast exPreEpochCommit).2 (by decide) (by decide)⟩

end DepTimeline
